import Mathlib

/-!
Verification of the table-extraction repository (extrac-table).

The development shallowly embeds the pure data-reshaping logic of the three
Python source files:

* `scan_pdf.py` — namespace `ScanPdf`: the JSON2 table normalizer
  `parse_json2_tables` (lines 119-199), the only component the spec
  documents in depth.
* the unnamed near-duplicate script (its usage line calls itself
  `convert_and_parse.py`) — namespace `ConvertParse`: the earlier
  `parse_json2_tables` (lines 53-92), without the defensive type checks.
* `main.py` — namespace `Main`: the OCR-path table builder
  `extract_tables_scanned`, the digital-path `extract_tables_digital`
  and the per-document driver `process_pdf`.

JSON values flowing through the normalizer are modelled by `JVal`
(mappings as ordered association lists with distinct keys, matching
insertion-ordered Python dicts; no float case is needed because the
claims and the documented PageTree schema only use integers).  Python
operations that can raise are modelled in `Except PyErr`; operations
used by the code that cannot raise are plain functions.  External
collaborators (HTTP API, fitz, camelot, PaddleOCR, tesseract, the
filesystem) are parameters of the embedded functions, never stubs of
repository logic.
-/

/-- Exception kinds the embedded Python code can raise. -/
inductive PyErr where
  | typeError
  | valueError
  | attributeError
  | indexError
deriving DecidableEq, Repr

/-- JSON-like Python values: None, bool, int, str, list, dict.
Dicts are insertion-ordered association lists with pairwise-distinct keys. -/
inductive JVal where
  | null : JVal
  | bool : Bool → JVal
  | int : Int → JVal
  | str : String → JVal
  | list : List JVal → JVal
  | obj : List (String × JVal) → JVal

/-- Python `d.get(k, default)` on a dict: first binding of the key wins
(keys are distinct in a real dict, so first = only). -/
def objGet (kvs : List (String × JVal)) (k : String) (d : JVal) : JVal :=
  match kvs with
  | [] => d
  | (k', v) :: rest => if k' = k then v else objGet rest k d

/-- Python `d[k] = v`: replace the value of an existing key in place,
else append the new binding at the end (insertion order). -/
def pySet (kvs : List (String × JVal)) (k : String) (v : JVal) : List (String × JVal) :=
  match kvs with
  | [] => [(k, v)]
  | (k', v') :: rest => if k' = k then (k, v) :: rest else (k', v') :: pySet rest k v

/-- Python `k in d` for a dict. -/
def hasKey (kvs : List (String × JVal)) (k : String) : Bool :=
  match kvs with
  | [] => false
  | (k', _) :: rest => k' = k || hasKey rest k

/-- Python truthiness (`bool(v)`): None, False, 0, empty string/list/dict
are falsy, everything else truthy. -/
def pyFalsy : JVal → Bool
  | .null => true
  | .bool b => !b
  | .int n => n == 0
  | .str s => s.isEmpty
  | .list xs => xs.isEmpty
  | .obj kvs => kvs.isEmpty

mutual

/-- Python `repr(v)` for the JSON-like fragment.  Strings render between
single quotes without escaping (all strings the claims touch are plain);
dicts and lists render with comma-and-space separators in order. -/
def pyRepr : JVal → String
  | .null => "None"
  | .bool true => "True"
  | .bool false => "False"
  | .int n => toString n
  | .str s => "\x27" ++ s ++ "\x27"
  | .list xs => "[" ++ pyReprElems xs ++ "]"
  | .obj kvs => "\x7b" ++ pyReprPairs kvs ++ "\x7d"

/-- Comma-separated reprs of the elements of a list value. -/
def pyReprElems : List JVal → String
  | [] => ""
  | [x] => pyRepr x
  | x :: y :: rest => pyRepr x ++ ", " ++ pyReprElems (y :: rest)

/-- Comma-separated `key: value` reprs of the bindings of a dict value. -/
def pyReprPairs : List (String × JVal) → String
  | [] => ""
  | [(k, v)] => "\x27" ++ k ++ "\x27: " ++ pyRepr v
  | (k, v) :: p :: rest => "\x27" ++ k ++ "\x27: " ++ pyRepr v ++ ", " ++ pyReprPairs (p :: rest)

end

/-- Python `str(v)`: identity on strings, `repr` rendering otherwise
(within the JSON-like fragment). -/
def pyStr : JVal → String
  | .str s => s
  | .null => pyRepr .null
  | .bool b => pyRepr (.bool b)
  | .int n => pyRepr (.int n)
  | .list xs => pyRepr (.list xs)
  | .obj kvs => pyRepr (.obj kvs)

/-- Python `s.strip()`: drop leading and trailing whitespace.  (Python
strips the Unicode whitespace class; the inputs of this development only
ever carry ASCII whitespace, which `Char.isWhitespace` covers.) -/
def pyStrip (s : String) : String :=
  String.mk (((s.data.dropWhile Char.isWhitespace).reverse.dropWhile Char.isWhitespace).reverse)

/-- Decimal value of a digit string. -/
def digitsToNat (cs : List Char) : Nat :=
  cs.foldl (fun acc c => acc * 10 + (c.toNat - 48)) 0

/-- Python `int(s)` on a string: strip whitespace, optional sign, decimal
digits.  (Python additionally accepts underscore digit grouping and
non-ASCII digits; no input in this development uses them.) -/
def pyStrToInt (s : String) : Except PyErr Int :=
  match (pyStrip s).data with
  | [] => .error .valueError
  | c :: rest =>
    if c = '-' then
      if rest ≠ [] ∧ rest.all Char.isDigit then .ok (-(Int.ofNat (digitsToNat rest)))
      else .error .valueError
    else if c = '+' then
      if rest ≠ [] ∧ rest.all Char.isDigit then .ok (Int.ofNat (digitsToNat rest))
      else .error .valueError
    else
      if (c :: rest).all Char.isDigit then .ok (Int.ofNat (digitsToNat (c :: rest)))
      else .error .valueError

/-- Python `int(v)`: ints pass through, bools coerce to 0/1, numeric
strings parse, everything else raises (TypeError for non-str/non-number,
ValueError for a non-numeric string). -/
def pyInt : JVal → Except PyErr Int
  | .int n => .ok n
  | .bool b => .ok (if b then 1 else 0)
  | .str s => pyStrToInt s
  | .null => .error .typeError
  | .list _ => .error .typeError
  | .obj _ => .error .typeError

/-- Python `for x in v`: lists iterate their elements, strings their
characters (as one-character strings), dicts their keys (insertion
order); None, bools and ints raise TypeError. -/
def pyIter : JVal → Except PyErr (List JVal)
  | .list xs => .ok xs
  | .str s => .ok (s.toList.map fun c => .str c.toString)
  | .obj kvs => .ok (kvs.map fun p => .str p.1)
  | .null => .error .typeError
  | .bool _ => .error .typeError
  | .int _ => .error .typeError

/-- Normalized table record: `{page, headers, rows}` as produced by both
`parse_json2_tables` implementations. -/
structure TableRec where
  page : Int
  headers : List String
  rows : List (List String)
deriving DecidableEq, Repr

namespace ScanPdf

/-- Body of the cell loop of `parse_json2_tables` in `scan_pdf.py`
(lines 180-187): a non-dict cell is skipped; `cell.get("text", "")` is
unwrapped one level when it is a dict; the result is coerced with
`str(...)` and stripped. -/
def cellText (cell : JVal) : Option String :=
  match cell with
  | .obj ckvs =>
    match objGet ckvs "text" (.str "") with
    | .obj tkvs => some (pyStrip (pyStr (objGet tkvs "text" (.str ""))))
    | t => some (pyStrip (pyStr t))
  | _ => none

/-- Cell strings of one row (`scan_pdf.py` lines 179-187): iterate
`r.get("column", [])` — which raises TypeError when that value is not
iterable — and keep the text of each dict cell. -/
def buildCols (colVal : JVal) : Except PyErr (List String) :=
  match pyIter colVal with
  | .error e => .error e
  | .ok cells => .ok (cells.filterMap cellText)

/-- Text matrix of one page (`scan_pdf.py` lines 175-188): non-dict row
entries are skipped, each dict row contributes its cell strings. -/
def buildMat : List JVal → Except PyErr (List (List String))
  | [] => .ok []
  | r :: rest =>
    match r with
    | .obj rkvs =>
      match buildCols (objGet rkvs "column" (.list [])) with
      | .error e => .error e
      | .ok cols =>
        match buildMat rest with
        | .error e => .error e
        | .ok mat => .ok (cols :: mat)
    | _ => buildMat rest

/-- Body of the page loop of `parse_json2_tables` in `scan_pdf.py`
(lines 165-198): skip non-dict pages; compute the 1-based index with
`int(pg.get("index", 0)) + 1` (which can raise, before the row checks);
skip pages whose `row` is not a list, is empty, or yields an empty
matrix; otherwise emit the record with the first matrix row as headers. -/
def processPage (pg : JVal) : Except PyErr (Option TableRec) :=
  match pg with
  | .obj pkvs =>
    match pyInt (objGet pkvs "index" (.int 0)) with
    | .error e => .error e
    | .ok i =>
      match objGet pkvs "row" (.list []) with
      | .list rows =>
        if rows.isEmpty then .ok none
        else
          match buildMat rows with
          | .error e => .error e
          | .ok mat =>
            match mat with
            | [] => .ok none
            | h :: t => .ok (some ⟨i + 1, h, t⟩)
      | _ => .ok none
  | _ => .ok none

/-- The page loop of `parse_json2_tables` in `scan_pdf.py`: records are
accumulated in page order; a raised exception aborts the whole call. -/
def parsePages : List JVal → Except PyErr (List TableRec)
  | [] => .ok []
  | pg :: rest =>
    match processPage pg with
    | .error e => .error e
    | .ok none => parsePages rest
    | .ok (some rec) =>
      match parsePages rest with
      | .error e => .error e
      | .ok recs => .ok (rec :: recs)

/-- The normalizer `parse_json2_tables` of `scan_pdf.py` (lines 119-199),
applied to a mapping `body`.  `body.get("document", {})` must itself be a
dict or the following `.get` raises AttributeError; a dict `page` value
is wrapped into a one-element list; a `page` value that is neither list
nor dict returns `[]`. -/
def parse_json2_tables (body : List (String × JVal)) : Except PyErr (List TableRec) :=
  match objGet body "document" (.obj []) with
  | .obj dkvs =>
    match objGet dkvs "page" (.list []) with
    | .list ps => parsePages ps
    | .obj pkvs => parsePages [.obj pkvs]
    | _ => .ok []
  | _ => .error .attributeError

end ScanPdf

/-! ### Association-list lemmas for the dict model -/

theorem objGet_pySet (kvs : List (String × JVal)) (k : String) (v d : JVal) :
    objGet (pySet kvs k v) k d = v := by
  induction kvs with
  | nil => simp [pySet, objGet]
  | cons p rest ih =>
    obtain ⟨k', v'⟩ := p
    by_cases h : k' = k
    · simp [pySet, h, objGet]
    · simp [pySet, h, objGet, ih]

theorem objGet_pySet_ne (kvs : List (String × JVal)) (k k' : String) (v d : JVal)
    (h : k ≠ k') : objGet (pySet kvs k v) k' d = objGet kvs k' d := by
  induction kvs with
  | nil => simp [pySet, objGet, h]
  | cons p rest ih =>
    obtain ⟨k₀, v₀⟩ := p
    by_cases h₀ : k₀ = k
    · subst h₀; simp [pySet, objGet, h]
    · simp [pySet, h₀, objGet, ih]

theorem objGet_of_hasKey_eq_false (kvs : List (String × JVal)) (k : String) (d : JVal)
    (h : hasKey kvs k = false) : objGet kvs k d = d := by
  induction kvs with
  | nil => rfl
  | cons p rest ih =>
    obtain ⟨k', v'⟩ := p
    simp only [hasKey, Bool.or_eq_false_iff, decide_eq_false_iff_not] at h
    simp [objGet, h.1, ih h.2]

/-! ### Claims about the `scan_pdf.py` normalizer -/

/-- C2: `parse_json2_tables` on the spec's worked example — a bare
single-page mapping whose first row holds the texts `A`, `B` and whose
second row holds a nested-object text `1` and a plain text `2` —
returns exactly one record: page 1, headers `[A, B]`, rows `[[1, 2]]`. -/
theorem c2_worked_example :
    ScanPdf.parse_json2_tables
      [("document", .obj [("page", .obj [("index", .int 0),
        ("row", .list [
          .obj [("column", .list [.obj [("text", .str "A")], .obj [("text", .str "B")]])],
          .obj [("column", .list [.obj [("text", .obj [("text", .str "1")])],
                                  .obj [("text", .str "2")]])]])])])] =
      .ok [⟨1, ["A", "B"], [["1", "2"]]⟩] := by
  rfl

/-- C3: replacing a `document.page` value that is the single mapping `M`
by the one-element list `[M]` — in an otherwise arbitrary body and
document mapping — does not change the result of `parse_json2_tables`:
the normalizer wraps a bare dict page into a one-element list itself. -/
theorem c3_bare_page_mapping_eq_wrapped (bkvs dkvs M : List (String × JVal)) :
    ScanPdf.parse_json2_tables
      (pySet bkvs "document" (.obj (pySet dkvs "page" (.obj M)))) =
    ScanPdf.parse_json2_tables
      (pySet bkvs "document" (.obj (pySet dkvs "page" (.list [.obj M])))) := by
  simp [ScanPdf.parse_json2_tables, objGet_pySet]

/-- C3 instantiated: wrapping the concrete worked-example page mapping
into a one-element list leaves the output unchanged. -/
theorem c3_bare_page_mapping_eq_wrapped_witness :
    ScanPdf.parse_json2_tables
      (pySet [] "document" (.obj (pySet [] "page"
        (.obj [("index", JVal.int 0), ("row", JVal.list [.obj [("column", JVal.list [.obj [("text", JVal.str "A")]])]])])))) =
    ScanPdf.parse_json2_tables
      (pySet [] "document" (.obj (pySet [] "page"
        (.list [.obj [("index", JVal.int 0), ("row", JVal.list [.obj [("column", JVal.list [.obj [("text", JVal.str "A")]])]])]])))) :=
  c3_bare_page_mapping_eq_wrapped [] []
    [("index", JVal.int 0), ("row", JVal.list [.obj [("column", JVal.list [.obj [("text", JVal.str "A")]])]])]

/-- C7: for a page mapping with a well-behaved `index` value, adding
`row: []` and omitting `row` entirely give the same result — no record
in either case, so the two inputs are indistinguishable in the output. -/
theorem c7_empty_row_eq_missing_row (pkvs : List (String × JVal)) (i : Int)
    (hno : hasKey pkvs "row" = false)
    (hidx : pyInt (objGet pkvs "index" (.int 0)) = .ok i) :
    ScanPdf.parse_json2_tables
        [("document", .obj [("page", .list [.obj (pySet pkvs "row" (.list []))])])] = .ok []
    ∧ ScanPdf.parse_json2_tables
        [("document", .obj [("page", .list [.obj pkvs])])] = .ok [] := by
  constructor
  · have hidx' : pyInt (objGet (pySet pkvs "row" (.list [])) "index" (.int 0)) = .ok i := by
      rw [objGet_pySet_ne pkvs "row" "index" _ _ (by decide)]; exact hidx
    simp [ScanPdf.parse_json2_tables, objGet, ScanPdf.parsePages, ScanPdf.processPage,
      hidx', objGet_pySet]
  · have hrow : objGet pkvs "row" (JVal.list []) = .list [] :=
      objGet_of_hasKey_eq_false pkvs "row" _ hno
    simp [ScanPdf.parse_json2_tables, objGet, ScanPdf.parsePages, ScanPdf.processPage,
      hidx, hrow]

/-- C7 at a concrete page mapping `{index: 0}`. -/
theorem c7_empty_row_eq_missing_row_witness :
    hasKey [("index", JVal.int 0)] "row" = false ∧
    (ScanPdf.parse_json2_tables
        [("document", .obj [("page", .list [.obj (pySet [("index", JVal.int 0)] "row" (.list []))])])] = .ok []
     ∧ ScanPdf.parse_json2_tables
        [("document", .obj [("page", .list [.obj [("index", JVal.int 0)]])])] = .ok []) :=
  ⟨rfl, c7_empty_row_eq_missing_row [("index", JVal.int 0)] 0 rfl rfl⟩

/-! ### Shape predicates over PageTree values -/

/-- Values Python's `for` loop accepts (within the JSON-like fragment):
lists, strings and dicts. -/
def iterOk : JVal → Bool
  | .list _ => true
  | .str _ => true
  | .obj _ => true
  | _ => false

/-- Values Python's `int(...)` accepts. -/
def intOk (v : JVal) : Bool :=
  match pyInt v with
  | .ok _ => true
  | .error _ => false

namespace ScanPdf

/-- A row entry whose processing cannot raise: either not a dict (it is
skipped) or its `column` value is iterable. -/
def safeRow (r : JVal) : Bool :=
  match r with
  | .obj rkvs => iterOk (objGet rkvs "column" (.list []))
  | _ => true

/-- A page entry whose processing cannot raise: either not a dict (it is
skipped) or its `index` coerces with `int(...)` and, when its `row`
value is a list, every row entry is safe. -/
def safePage (p : JVal) : Bool :=
  match p with
  | .obj pkvs =>
    intOk (objGet pkvs "index" (.int 0)) &&
      (match objGet pkvs "row" (.list []) with
       | .list rs => rs.all safeRow
       | _ => true)
  | _ => true

/-- A mapping body whose processing cannot raise: the `document` value
is a dict and every page entry (a bare dict page counting as its own
one-element list) is safe. -/
def safeBody (body : List (String × JVal)) : Bool :=
  match objGet body "document" (.obj []) with
  | .obj dkvs =>
    match objGet dkvs "page" (.list []) with
    | .list ps => ps.all safePage
    | .obj pkvs => safePage (.obj pkvs)
    | _ => true
  | _ => false

theorem buildCols_ok_of_iterOk (col : JVal) (h : iterOk col = true) :
    ∃ cs, buildCols col = .ok cs := by
  cases col with
  | list xs => exact ⟨_, rfl⟩
  | str s => exact ⟨_, rfl⟩
  | obj kvs => exact ⟨_, rfl⟩
  | null => simp [iterOk] at h
  | bool b => simp [iterOk] at h
  | int n => simp [iterOk] at h

theorem buildMat_ok_of_safe (rs : List JVal) (h : rs.all safeRow = true) :
    ∃ m, buildMat rs = .ok m := by
  induction rs with
  | nil => exact ⟨[], rfl⟩
  | cons r rest ih =>
    simp only [List.all_cons, Bool.and_eq_true] at h
    obtain ⟨m, hm⟩ := ih h.2
    cases r with
    | obj rkvs =>
      obtain ⟨cs, hcs⟩ := buildCols_ok_of_iterOk _ (by simpa [safeRow] using h.1)
      exact ⟨cs :: m, by simp [buildMat, hcs, hm]⟩
    | null => exact ⟨m, hm⟩
    | bool b => exact ⟨m, hm⟩
    | int n => exact ⟨m, hm⟩
    | str s => exact ⟨m, hm⟩
    | list xs => exact ⟨m, hm⟩

theorem processPage_ok_of_safe (p : JVal) (h : safePage p = true) :
    ∃ o, processPage p = .ok o := by
  cases p with
  | obj pkvs =>
    simp only [safePage, Bool.and_eq_true] at h
    obtain ⟨h1, h2⟩ := h
    obtain ⟨i, hi⟩ : ∃ i, pyInt (objGet pkvs "index" (.int 0)) = .ok i := by
      unfold intOk at h1
      cases hp : pyInt (objGet pkvs "index" (.int 0)) with
      | ok i => exact ⟨i, rfl⟩
      | error e => rw [hp] at h1; simp at h1
    cases hrow : objGet pkvs "row" (.list []) with
    | list rs =>
      rw [hrow] at h2
      by_cases he : rs.isEmpty
      · exact ⟨none, by simp [processPage, hi, hrow, he]⟩
      · obtain ⟨m, hm⟩ := buildMat_ok_of_safe rs h2
        cases m with
        | nil => exact ⟨none, by simp [processPage, hi, hrow, he, hm]⟩
        | cons a t => exact ⟨some ⟨i + 1, a, t⟩, by simp [processPage, hi, hrow, he, hm]⟩
    | null => exact ⟨none, by simp [processPage, hi, hrow]⟩
    | bool b => exact ⟨none, by simp [processPage, hi, hrow]⟩
    | int n => exact ⟨none, by simp [processPage, hi, hrow]⟩
    | str s => exact ⟨none, by simp [processPage, hi, hrow]⟩
    | obj o => exact ⟨none, by simp [processPage, hi, hrow]⟩
  | null => exact ⟨none, rfl⟩
  | bool b => exact ⟨none, rfl⟩
  | int n => exact ⟨none, rfl⟩
  | str s => exact ⟨none, rfl⟩
  | list xs => exact ⟨none, rfl⟩

theorem parsePages_ok_of_safe (ps : List JVal) (h : ps.all safePage = true) :
    ∃ recs, parsePages ps = .ok recs := by
  induction ps with
  | nil => exact ⟨[], rfl⟩
  | cons p rest ih =>
    simp only [List.all_cons, Bool.and_eq_true] at h
    obtain ⟨o, ho⟩ := processPage_ok_of_safe p h.1
    obtain ⟨recs, hrecs⟩ := ih h.2
    cases o with
    | none => exact ⟨recs, by simp [parsePages, ho, hrecs]⟩
    | some rec => exact ⟨rec :: recs, by simp [parsePages, ho, hrecs]⟩

end ScanPdf

/-- C1 fails as stated: a page whose row has a non-list `column` value
(here the integer 5) is not skipped silently — iterating it raises
TypeError and `parse_json2_tables` aborts with that exception. -/
theorem c1_counterexample :
    ScanPdf.parse_json2_tables
      [("document", .obj [("page", .list [.obj [("row", .list [.obj [("column", .int 5)]])]])])] =
      .error .typeError := rfl

/-- C1 amended: `parse_json2_tables` raises no exception on any mapping
body whose `document` value is a dict (or absent), whose dict page
entries have `int(...)`-coercible `index` values and, when their `row`
value is a list, only dict row entries with iterable `column` values.
Under those conditions all the claim's malformed shapes — a non-list
`page`, non-dict page entries, a non-list `row`, non-dict row entries
and non-dict cells — are skipped silently; a non-iterable non-list
`column` value, by contrast, raises TypeError (see the counterexample),
so it is excluded here. -/
theorem c1_amended_no_raise_on_safe_shapes (body : List (String × JVal))
    (h : ScanPdf.safeBody body = true) :
    ∃ recs, ScanPdf.parse_json2_tables body = .ok recs := by
  unfold ScanPdf.safeBody at h
  unfold ScanPdf.parse_json2_tables
  cases hd : objGet body "document" (.obj []) with
  | obj dkvs =>
    rw [hd] at h
    dsimp only at h ⊢
    cases hp : objGet dkvs "page" (.list []) with
    | list ps =>
      rw [hp] at h
      simp only [hp]
      exact ScanPdf.parsePages_ok_of_safe ps h
    | obj pkvs =>
      rw [hp] at h
      simp only [hp]
      exact ScanPdf.parsePages_ok_of_safe [.obj pkvs] (by simpa using h)
    | null => exact ⟨[], rfl⟩
    | bool b => exact ⟨[], rfl⟩
    | int n => exact ⟨[], rfl⟩
    | str s => exact ⟨[], rfl⟩
  | null => rw [hd] at h; simp at h
  | bool b => rw [hd] at h; simp at h
  | int n => rw [hd] at h; simp at h
  | str s => rw [hd] at h; simp at h
  | list xs => rw [hd] at h; simp at h

/-- C1 amended, exercised on a body holding every skippable malformed
shape at once: a non-dict page entry, a page whose `row` is a string,
a non-dict row entry and a non-dict cell. -/
theorem c1_amended_no_raise_on_safe_shapes_witness :
    ScanPdf.safeBody
      [("document", JVal.obj [("page", JVal.list [
        JVal.int 3,
        JVal.obj [("index", JVal.int 0), ("row", JVal.str "xy")],
        JVal.obj [("index", JVal.int 1), ("row", JVal.list [
          JVal.int 7,
          JVal.obj [("column", JVal.list [JVal.str "c", JVal.obj [("text", JVal.str " t ")]])]])]])])] = true ∧
    ∃ recs, ScanPdf.parse_json2_tables
      [("document", JVal.obj [("page", JVal.list [
        JVal.int 3,
        JVal.obj [("index", JVal.int 0), ("row", JVal.str "xy")],
        JVal.obj [("index", JVal.int 1), ("row", JVal.list [
          JVal.int 7,
          JVal.obj [("column", JVal.list [JVal.str "c", JVal.obj [("text", JVal.str " t ")]])]])]])])] = .ok recs :=
  ⟨rfl, c1_amended_no_raise_on_safe_shapes _ rfl⟩

/-- C4 fails as stated: a cell whose `text` is doubly nested —
`{text: {text: {text: x}}}` — is unwrapped one level only, and the
resulting cell string is Python's rendering of the inner mapping,
`{'text': 'x'}`, which is not the empty string. -/
theorem c4_counterexample :
    ScanPdf.parse_json2_tables [("document", .obj [("page", .obj [("index", .int 0),
      ("row", .list [.obj [("column", .list [.obj [("text",
        .obj [("text", .obj [("text", .str "x")])])]])]])])])] =
      .ok [⟨1, ["\x7b\x27text\x27: \x27x\x27\x7d"], []⟩] ∧
    "\x7b\x27text\x27: \x27x\x27\x7d" ≠ "" :=
  ⟨rfl, by decide⟩

/-- C4 amended: a cell whose `text` value is a mapping with an inner
`text` field that is itself a mapping is unwrapped only one level, and
the resulting cell string is the stripped `str(...)` coercion (the
Python repr) of that inner mapping — not the empty string. -/
theorem c4_amended_double_nesting_yields_repr (ckvs tkvs ikvs : List (String × JVal))
    (h1 : objGet ckvs "text" (.str "") = .obj tkvs)
    (h2 : objGet tkvs "text" (.str "") = .obj ikvs) :
    ScanPdf.cellText (.obj ckvs) = some (pyStrip (pyRepr (.obj ikvs))) := by
  simp [ScanPdf.cellText, h1, h2, pyStr]

/-- C4 amended at the concrete doubly-nested cell `{text: {text: {text: x}}}`. -/
theorem c4_amended_double_nesting_yields_repr_witness :
    ScanPdf.cellText (.obj [("text", JVal.obj [("text", JVal.obj [("text", JVal.str "x")])])]) =
      some (pyStrip (pyRepr (.obj [("text", JVal.str "x")]))) :=
  c4_amended_double_nesting_yields_repr
    [("text", JVal.obj [("text", JVal.obj [("text", JVal.str "x")])])]
    [("text", JVal.obj [("text", JVal.str "x")])]
    [("text", JVal.str "x")] rfl rfl

/-! ### Page-index reasoning -/

namespace ScanPdf

/-- An `index` value that either fails `int(...)` (the page raises, so
no record appears) or coerces to a nonnegative integer. -/
def nonnegIdx (v : JVal) : Bool :=
  match pyInt v with
  | .ok i => decide (0 ≤ i)
  | .error _ => true

/-- A page entry whose `index`, when the entry is a dict, is nonnegative
in the sense of `nonnegIdx`. -/
def goodIdxPage (p : JVal) : Bool :=
  match p with
  | .obj pkvs => nonnegIdx (objGet pkvs "index" (.int 0))
  | _ => true

/-- A body all of whose page entries satisfy `goodIdxPage`. -/
def goodIdxBody (body : List (String × JVal)) : Bool :=
  match objGet body "document" (.obj []) with
  | .obj dkvs =>
    match objGet dkvs "page" (.list []) with
    | .list ps => ps.all goodIdxPage
    | .obj pkvs => goodIdxPage (.obj pkvs)
    | _ => true
  | _ => true

theorem processPage_some_page (p : JVal) (rec : TableRec)
    (h : processPage p = .ok (some rec)) :
    ∃ pkvs i, p = .obj pkvs ∧ pyInt (objGet pkvs "index" (.int 0)) = .ok i ∧
      rec.page = i + 1 := by
  cases p with
  | obj pkvs =>
    unfold processPage at h
    dsimp only at h
    cases hi : pyInt (objGet pkvs "index" (.int 0)) with
    | error e => rw [hi] at h; simp at h
    | ok i =>
      rw [hi] at h
      refine ⟨pkvs, i, rfl, hi, ?_⟩
      cases hrow : objGet pkvs "row" (.list []) with
      | list rs =>
        rw [hrow] at h
        dsimp only at h
        by_cases he : rs.isEmpty
        · simp [he] at h
        · simp only [he, if_false] at h
          cases hm : buildMat rs with
          | error e => rw [hm] at h; simp at h
          | ok m =>
            rw [hm] at h
            cases m with
            | nil => simp at h
            | cons a t =>
              simp at h
              rw [← h]
      | null => rw [hrow] at h; simp at h
      | bool b => rw [hrow] at h; simp at h
      | int n => rw [hrow] at h; simp at h
      | str s => rw [hrow] at h; simp at h
      | obj o => rw [hrow] at h; simp at h
  | null => simp [processPage] at h
  | bool b => simp [processPage] at h
  | int n => simp [processPage] at h
  | str s => simp [processPage] at h
  | list xs => simp [processPage] at h

theorem parsePages_mem_inv (ps : List JVal) (recs : List TableRec)
    (h : parsePages ps = .ok recs) (rec : TableRec) (hmem : rec ∈ recs) :
    ∃ p ∈ ps, processPage p = .ok (some rec) := by
  induction ps generalizing recs with
  | nil =>
    simp only [parsePages, Except.ok.injEq] at h
    subst h
    simp at hmem
  | cons p rest ih =>
    unfold parsePages at h
    cases ho : processPage p with
    | error e => rw [ho] at h; simp at h
    | ok o =>
      rw [ho] at h
      cases o with
      | none =>
        obtain ⟨q, hq1, hq2⟩ := ih recs h hmem
        exact ⟨q, List.mem_cons_of_mem _ hq1, hq2⟩
      | some r =>
        dsimp only at h
        cases hr : parsePages rest with
        | error e => rw [hr] at h; simp at h
        | ok recs' =>
          rw [hr] at h
          simp only [Except.ok.injEq] at h
          subst h
          rcases List.mem_cons.mp hmem with hc | hc
          · subst hc; exact ⟨p, List.mem_cons_self _ _, ho⟩
          · obtain ⟨q, hq1, hq2⟩ := ih recs' hr hc
            exact ⟨q, List.mem_cons_of_mem _ hq1, hq2⟩

end ScanPdf

/-- C6 fails as stated: on the input whose single page carries
`index: -1` (and one row), `parse_json2_tables` returns a record whose
`page` field is 0, which is not a positive integer. -/
theorem c6_counterexample :
    ScanPdf.parse_json2_tables
      [("document", .obj [("page", .list [.obj [("index", .int (-1)),
        ("row", .list [.obj []])]])])] = .ok [⟨0, [], []⟩] ∧ ¬(1 ≤ (0 : Int)) :=
  ⟨rfl, by decide⟩

/-- C6 amended: every record emitted by `parse_json2_tables` has a
`page` field of at least 1 provided every dict page entry's `index`
value coerces to a nonnegative integer (the code computes
`int(index) + 1` with no clamping, so a negative index yields a
non-positive page number). -/
theorem c6_amended_page_positive (body : List (String × JVal)) (recs : List TableRec)
    (hg : ScanPdf.goodIdxBody body = true)
    (h : ScanPdf.parse_json2_tables body = .ok recs) :
    ∀ rec ∈ recs, 1 ≤ rec.page := by
  intro rec hmem
  unfold ScanPdf.parse_json2_tables at h
  unfold ScanPdf.goodIdxBody at hg
  cases hd : objGet body "document" (.obj []) with
  | obj dkvs =>
    rw [hd] at h hg
    dsimp only at h hg
    cases hp : objGet dkvs "page" (.list []) with
    | list ps =>
      rw [hp] at h hg
      obtain ⟨p, hpmem, hpp⟩ := ScanPdf.parsePages_mem_inv ps recs h rec hmem
      obtain ⟨pkvs, i, hpe, hi, hpage⟩ := ScanPdf.processPage_some_page p rec hpp
      have hgp : ScanPdf.goodIdxPage p = true := by
        have := List.all_eq_true.mp hg
        simpa using this p hpmem
      rw [hpe] at hgp
      simp only [ScanPdf.goodIdxPage] at hgp
      unfold ScanPdf.nonnegIdx at hgp
      rw [hi] at hgp
      simp at hgp
      omega
    | obj pkvs2 =>
      rw [hp] at h hg
      obtain ⟨p, hpmem, hpp⟩ := ScanPdf.parsePages_mem_inv [.obj pkvs2] recs h rec hmem
      obtain ⟨pkvs, i, hpe, hi, hpage⟩ := ScanPdf.processPage_some_page p rec hpp
      simp only [List.mem_singleton] at hpmem
      rw [hpmem] at hpe
      have hgp : ScanPdf.goodIdxPage (.obj pkvs2) = true := hg
      rw [hpe] at hgp
      simp only [ScanPdf.goodIdxPage] at hgp
      unfold ScanPdf.nonnegIdx at hgp
      rw [hi] at hgp
      simp at hgp
      omega
    | null => rw [hp] at h; injection h with h'; subst h'; simp at hmem
    | bool b => rw [hp] at h; injection h with h'; subst h'; simp at hmem
    | int n => rw [hp] at h; injection h with h'; subst h'; simp at hmem
    | str s => rw [hp] at h; injection h with h'; subst h'; simp at hmem
  | null => rw [hd] at h; simp at h
  | bool b => rw [hd] at h; simp at h
  | int n => rw [hd] at h; simp at h
  | str s => rw [hd] at h; simp at h
  | list xs => rw [hd] at h; simp at h

/-- C6 amended at the worked example: its single page has index 0, so
the one emitted record's page field is at least 1. -/
theorem c6_amended_page_positive_witness :
    ScanPdf.goodIdxBody
      [("document", JVal.obj [("page", JVal.obj [("index", JVal.int 0),
        ("row", JVal.list [.obj [("column", JVal.list [.obj [("text", JVal.str "A")]])]])])])] = true ∧
    ∀ rec ∈ [(⟨1, ["A"], []⟩ : TableRec)], 1 ≤ rec.page :=
  ⟨rfl, c6_amended_page_positive
    [("document", JVal.obj [("page", JVal.obj [("index", JVal.int 0),
      ("row", JVal.list [.obj [("column", JVal.list [.obj [("text", JVal.str "A")]])]])])])]
    [⟨1, ["A"], []⟩] rfl rfl⟩

/-! ### Well-formed PageTree inputs (claim C5) -/

namespace ScanPdf

/-- A schema-conforming cell for C5: a dict whose `text` value (default
empty string) is a string. -/
def wfCellS (c : JVal) : Bool :=
  match c with
  | .obj ckvs =>
    match objGet ckvs "text" (.str "") with
    | .str _ => true
    | _ => false
  | _ => false

/-- A schema-conforming row for C5: a dict whose `column` value (default
empty list) is a list of conforming cells. -/
def wfRowS (r : JVal) : Bool :=
  match r with
  | .obj rkvs =>
    match objGet rkvs "column" (.list []) with
    | .list cs => cs.all wfCellS
    | _ => false
  | _ => false

/-- A schema-conforming page for C5: a dict with an integer `index`
value and a list `row` value of conforming rows. -/
def wfPageS (p : JVal) : Bool :=
  match p with
  | .obj pkvs =>
    (match objGet pkvs "index" (.int 0) with
     | .int _ => true
     | _ => false) &&
    (match objGet pkvs "row" (.list []) with
     | .list rs => rs.all wfRowS
     | _ => false)
  | _ => false

/-- Whether a page entry carries at least one row (its `row` value is a
non-empty list). -/
def pageHasRow (p : JVal) : Bool :=
  match p with
  | .obj pkvs =>
    match objGet pkvs "row" (.list []) with
    | .list rs => !rs.isEmpty
    | _ => false
  | _ => false

/-- The integer `index` value of a dict page entry (0 when absent). -/
def pageIndexInt (p : JVal) : Int :=
  match p with
  | .obj pkvs =>
    match objGet pkvs "index" (.int 0) with
    | .int i => i
    | _ => 0
  | _ => 0

theorem buildMat_wfS (rs : List JVal) (h : rs.all wfRowS = true) :
    ∃ m, buildMat rs = .ok m ∧ m.length = rs.length := by
  induction rs with
  | nil => exact ⟨[], rfl, rfl⟩
  | cons r rest ih =>
    simp only [List.all_cons, Bool.and_eq_true] at h
    obtain ⟨m, hm, hlen⟩ := ih h.2
    have h1 := h.1
    cases r with
    | obj rkvs =>
      cases hcol : objGet rkvs "column" (.list []) with
      | list cs =>
        refine ⟨cs.filterMap cellText :: m, ?_, by simp [hlen]⟩
        simp [buildMat, hcol, buildCols, pyIter, hm]
      | null => simp only [wfRowS, hcol] at h1; exact absurd h1 Bool.false_ne_true
      | bool b => simp only [wfRowS, hcol] at h1; exact absurd h1 Bool.false_ne_true
      | int n => simp only [wfRowS, hcol] at h1; exact absurd h1 Bool.false_ne_true
      | str s => simp only [wfRowS, hcol] at h1; exact absurd h1 Bool.false_ne_true
      | obj o => simp only [wfRowS, hcol] at h1; exact absurd h1 Bool.false_ne_true
    | null => simp [wfRowS] at h1
    | bool b => simp [wfRowS] at h1
    | int n => simp [wfRowS] at h1
    | str s => simp [wfRowS] at h1
    | list xs => simp [wfRowS] at h1

theorem processPage_wfS (p : JVal) (h : wfPageS p = true) :
    (pageHasRow p = false → processPage p = .ok none) ∧
    (pageHasRow p = true →
      ∃ rec, processPage p = .ok (some rec) ∧ rec.page = pageIndexInt p + 1) := by
  cases p with
  | obj pkvs =>
    simp only [wfPageS, Bool.and_eq_true] at h
    obtain ⟨h1, h2⟩ := h
    cases hidx : objGet pkvs "index" (.int 0) with
    | int i =>
      cases hrow : objGet pkvs "row" (.list []) with
      | list rs =>
        rw [hrow] at h2
        constructor
        · intro hnr
          simp only [pageHasRow, hrow] at hnr
          have hempty : rs = [] := by
            cases rs with
            | nil => rfl
            | cons a b => simp at hnr
          subst hempty
          simp [processPage, hidx, pyInt, hrow]
        · intro hr
          simp only [pageHasRow, hrow, Bool.not_eq_false] at hr
          obtain ⟨m, hm, hlen⟩ := buildMat_wfS rs h2
          cases m with
          | nil =>
            exfalso
            have : rs.isEmpty = true := by
              cases rs with
              | nil => rfl
              | cons a b => simp at hlen
            rw [this] at hr
            exact Bool.false_ne_true hr
          | cons a t =>
            refine ⟨⟨i + 1, a, t⟩, ?_, by simp [pageIndexInt, hidx]⟩
            have hne : rs.isEmpty = false := by
              cases rs with
              | nil => simp at hlen
              | cons x xs => rfl
            simp [processPage, hidx, pyInt, hrow, hne, hm]
      | null => rw [hrow] at h2; exact absurd h2 (by simp)
      | bool b => rw [hrow] at h2; exact absurd h2 (by simp)
      | int n => rw [hrow] at h2; exact absurd h2 (by simp)
      | str s => rw [hrow] at h2; exact absurd h2 (by simp)
      | obj o => rw [hrow] at h2; exact absurd h2 (by simp)
    | null => rw [hidx] at h1; exact absurd h1 (by simp)
    | bool b => rw [hidx] at h1; exact absurd h1 (by simp)
    | str s => rw [hidx] at h1; exact absurd h1 (by simp)
    | list xs => rw [hidx] at h1; exact absurd h1 (by simp)
    | obj o => rw [hidx] at h1; exact absurd h1 (by simp)
  | null => simp [wfPageS] at h
  | bool b => simp [wfPageS] at h
  | int n => simp [wfPageS] at h
  | str s => simp [wfPageS] at h
  | list xs => simp [wfPageS] at h

theorem parsePages_wfS (ps : List JVal) (h : ps.all wfPageS = true) :
    ∃ recs, parsePages ps = .ok recs ∧
      recs.map TableRec.page = (ps.filter pageHasRow).map (fun p => pageIndexInt p + 1) := by
  induction ps with
  | nil => exact ⟨[], rfl, rfl⟩
  | cons p rest ih =>
    simp only [List.all_cons, Bool.and_eq_true] at h
    obtain ⟨recs, hrecs, hmap⟩ := ih h.2
    cases hpr : pageHasRow p with
    | false =>
      have hnone := (processPage_wfS p h.1).1 hpr
      refine ⟨recs, by simp [parsePages, hnone, hrecs], ?_⟩
      simp [List.filter_cons, hpr, hmap]
    | true =>
      obtain ⟨rec, hsome, hpage⟩ := (processPage_wfS p h.1).2 hpr
      refine ⟨rec :: recs, by simp [parsePages, hsome, hrecs], ?_⟩
      simp [List.filter_cons, hpr, hmap, hpage]

end ScanPdf

/-- C5: on a body whose `document` value is a dict and whose `page`
value is a list of schema-conforming pages (integer `index`, list `row`
of dict rows with string-text dict cells), `parse_json2_tables`
succeeds, and the emitted records' `page` fields are exactly, in input
order, `index + 1` of the page entries that have at least one row — so
there is one record per such page, in the same order. -/
theorem c5_wellformed_one_record_per_nonempty_page
    (body dkvs : List (String × JVal)) (ps : List JVal)
    (hd : objGet body "document" (.obj []) = .obj dkvs)
    (hp : objGet dkvs "page" (.list []) = .list ps)
    (hwf : ps.all ScanPdf.wfPageS = true) :
    ∃ recs, ScanPdf.parse_json2_tables body = .ok recs ∧
      recs.map TableRec.page =
        (ps.filter ScanPdf.pageHasRow).map (fun p => ScanPdf.pageIndexInt p + 1) := by
  obtain ⟨recs, h1, h2⟩ := ScanPdf.parsePages_wfS ps hwf
  refine ⟨recs, ?_, h2⟩
  unfold ScanPdf.parse_json2_tables
  rw [hd]
  dsimp only
  rw [hp]
  exact h1

/-- C5 at a concrete two-page body: the first page (index 0) has one
row, the second (index 4) has `row: []`; exactly one record appears,
with page field 1. -/
theorem c5_wellformed_one_record_per_nonempty_page_witness :
    ∃ recs, ScanPdf.parse_json2_tables
      [("document", JVal.obj [("page", JVal.list [
        JVal.obj [("index", JVal.int 0),
          ("row", JVal.list [.obj [("column", JVal.list [.obj [("text", JVal.str "A")]])]])],
        JVal.obj [("index", JVal.int 4), ("row", JVal.list [])]])])] = .ok recs ∧
      recs.map TableRec.page =
        ([JVal.obj [("index", JVal.int 0),
            ("row", JVal.list [.obj [("column", JVal.list [.obj [("text", JVal.str "A")]])]])],
          JVal.obj [("index", JVal.int 4), ("row", JVal.list [])]].filter
            ScanPdf.pageHasRow).map (fun p => ScanPdf.pageIndexInt p + 1) :=
  c5_wellformed_one_record_per_nonempty_page _ _ _ rfl rfl rfl

/-! ### The earlier normalizer (unnamed script, lines 53-92) -/

namespace ConvertParse

/-- Cell loop of the earlier `parse_json2_tables` (lines 77-82): every
cell must be a dict (`cell.get` raises AttributeError otherwise); the
`text` value, unwrapped one level when a dict, must be a string because
it is stripped with `.strip()` and not coerced first. -/
def colsGo : List JVal → Except PyErr (List String)
  | [] => .ok []
  | c :: rest =>
    match c with
    | .obj ckvs =>
      match (match objGet ckvs "text" (.str "") with
             | .obj tkvs => objGet tkvs "text" (.str "")
             | t => t) with
      | .str s =>
        match colsGo rest with
        | .error e => .error e
        | .ok cs => .ok (pyStrip s :: cs)
      | _ => .error .attributeError
    | _ => .error .attributeError

/-- Cell strings of one row in the earlier script: iterate the `column`
value (raising TypeError when not iterable), then run the cell loop. -/
def buildCols (colVal : JVal) : Except PyErr (List String) :=
  match pyIter colVal with
  | .error e => .error e
  | .ok cells => colsGo cells

/-- Text matrix of one page in the earlier script (lines 74-83): there
is no dict check on row entries, so `r.get` raises AttributeError on a
non-dict row entry. -/
def buildMat : List JVal → Except PyErr (List (List String))
  | [] => .ok []
  | r :: rest =>
    match r with
    | .obj rkvs =>
      match buildCols (objGet rkvs "column" (.list [])) with
      | .error e => .error e
      | .ok cols =>
        match buildMat rest with
        | .error e => .error e
        | .ok mat => .ok (cols :: mat)
    | _ => .error .attributeError

/-- Page loop body of the earlier script (lines 68-91): `pg.get` raises
on a non-dict page; `if not rows: continue` uses Python truthiness; the
rows value is then iterated (raising when not iterable); `mat[0]` would
raise IndexError on an empty matrix (unreachable when `rows` is truthy
and iterates successfully, but part of the code). -/
def processPage (pg : JVal) : Except PyErr (Option TableRec) :=
  match pg with
  | .obj pkvs =>
    match pyInt (objGet pkvs "index" (.int 0)) with
    | .error e => .error e
    | .ok i =>
      if pyFalsy (objGet pkvs "row" (.list [])) then .ok none
      else
        match pyIter (objGet pkvs "row" (.list [])) with
        | .error e => .error e
        | .ok rs =>
          match buildMat rs with
          | .error e => .error e
          | .ok mat =>
            match mat with
            | [] => .error .indexError
            | h :: t => .ok (some ⟨i + 1, h, t⟩)
  | _ => .error .attributeError

/-- Page loop of the earlier script: records in page order, a raised
exception aborts the call. -/
def parsePages : List JVal → Except PyErr (List TableRec)
  | [] => .ok []
  | pg :: rest =>
    match processPage pg with
    | .error e => .error e
    | .ok none => parsePages rest
    | .ok (some rec) =>
      match parsePages rest with
      | .error e => .error e
      | .ok recs => .ok (rec :: recs)

/-- The dict-wrapping step of the earlier script (lines 65-66): a bare
dict `page` value becomes a one-element list, everything else is kept. -/
def wrapPage (v : JVal) : JVal :=
  match v with
  | .obj pkvs => .list [.obj pkvs]
  | v => v

/-- The earlier `parse_json2_tables` (unnamed script, lines 53-92):
`docs.get("page")` defaults to None (not `[]`), there is no list check —
the possibly-wrapped value is iterated directly, so an absent `page`
raises TypeError and a string `page` iterates its characters. -/
def parse_json2_tables (body : List (String × JVal)) : Except PyErr (List TableRec) :=
  match objGet body "document" (.obj []) with
  | .obj dkvs =>
    match pyIter (wrapPage (objGet dkvs "page" .null)) with
    | .error e => .error e
    | .ok elems => parsePages elems
  | _ => .error .attributeError

end ConvertParse

/-! ### Claim C10: the two normalizers agree on well-formed inputs -/

/-- A cell conforming to C10's schema: a dict whose `text` value is a
string or a dict with a string `text` field (absent values defaulting
to the empty string). -/
def wfCellE (c : JVal) : Bool :=
  match c with
  | .obj ckvs =>
    match objGet ckvs "text" (.str "") with
    | .str _ => true
    | .obj tkvs =>
      match objGet tkvs "text" (.str "") with
      | .str _ => true
      | _ => false
    | _ => false
  | _ => false

/-- A row conforming to C10's schema: a dict whose `column` value is a
list of conforming cells. -/
def wfRowE (r : JVal) : Bool :=
  match r with
  | .obj rkvs =>
    match objGet rkvs "column" (.list []) with
    | .list cs => cs.all wfCellE
    | _ => false
  | _ => false

/-- A page conforming to C10's schema: a dict with an integer `index`
and a non-empty list `row` of conforming rows. -/
def wfPageE (p : JVal) : Bool :=
  match p with
  | .obj pkvs =>
    (match objGet pkvs "index" (.int 0) with
     | .int _ => true
     | _ => false) &&
    (match objGet pkvs "row" (.list []) with
     | .list rs => !rs.isEmpty && rs.all wfRowE
     | _ => false)
  | _ => false

/-- When a key is present (witnessed by a lookup result different from
the first default), the default value is irrelevant. -/
theorem objGet_default_irrel (kvs : List (String × JVal)) (k : String) (d1 d2 v : JVal)
    (h : objGet kvs k d1 = v) (hne : v ≠ d1) : objGet kvs k d2 = v := by
  induction kvs with
  | nil => exact absurd h.symm (by simpa using hne)
  | cons p rest ih =>
    obtain ⟨k', v'⟩ := p
    by_cases hk : k' = k
    · simpa [objGet, hk] using (by simpa [objGet, hk] using h : v' = v)
    · simp only [objGet, hk, if_false] at h ⊢
      exact ih h

theorem colsGo_eq_filterMap (cs : List JVal) (h : cs.all wfCellE = true) :
    ConvertParse.colsGo cs = .ok (cs.filterMap ScanPdf.cellText) := by
  induction cs with
  | nil => rfl
  | cons c rest ih =>
    simp only [List.all_cons, Bool.and_eq_true] at h
    have hih := ih h.2
    have h1 := h.1
    cases c with
    | obj ckvs =>
      cases ht : objGet ckvs "text" (.str "") with
      | str s =>
        simp [ConvertParse.colsGo, ht, hih, ScanPdf.cellText, pyStr]
      | obj tkvs =>
        rw [wfCellE] at h1
        rw [ht] at h1
        dsimp only at h1
        cases hin : objGet tkvs "text" (.str "") with
        | str s2 =>
          simp [ConvertParse.colsGo, ht, hin, hih, ScanPdf.cellText, pyStr]
        | null => rw [hin] at h1; exact absurd h1 (by simp)
        | bool b => rw [hin] at h1; exact absurd h1 (by simp)
        | int n => rw [hin] at h1; exact absurd h1 (by simp)
        | list xs => rw [hin] at h1; exact absurd h1 (by simp)
        | obj o => rw [hin] at h1; exact absurd h1 (by simp)
      | null => rw [wfCellE, ht] at h1; exact absurd h1 (by simp)
      | bool b => rw [wfCellE, ht] at h1; exact absurd h1 (by simp)
      | int n => rw [wfCellE, ht] at h1; exact absurd h1 (by simp)
      | list xs => rw [wfCellE, ht] at h1; exact absurd h1 (by simp)
    | null => simp [wfCellE] at h1
    | bool b => simp [wfCellE] at h1
    | int n => simp [wfCellE] at h1
    | str s => simp [wfCellE] at h1
    | list xs => simp [wfCellE] at h1

theorem buildMat_eq_of_wf (rs : List JVal) (h : rs.all wfRowE = true) :
    ∃ m, ConvertParse.buildMat rs = .ok m ∧ ScanPdf.buildMat rs = .ok m ∧
      m.length = rs.length := by
  induction rs with
  | nil => exact ⟨[], rfl, rfl, rfl⟩
  | cons r rest ih =>
    simp only [List.all_cons, Bool.and_eq_true] at h
    obtain ⟨m, hm1, hm2, hlen⟩ := ih h.2
    have h1 := h.1
    cases r with
    | obj rkvs =>
      cases hcol : objGet rkvs "column" (.list []) with
      | list cs =>
        rw [wfRowE, hcol] at h1
        have hc := colsGo_eq_filterMap cs h1
        refine ⟨cs.filterMap ScanPdf.cellText :: m, ?_, ?_, by simp [hlen]⟩
        · simp [ConvertParse.buildMat, hcol, ConvertParse.buildCols, pyIter, hc, hm1]
        · simp [ScanPdf.buildMat, hcol, ScanPdf.buildCols, pyIter, hm2]
      | null => rw [wfRowE, hcol] at h1; exact absurd h1 (by simp)
      | bool b => rw [wfRowE, hcol] at h1; exact absurd h1 (by simp)
      | int n => rw [wfRowE, hcol] at h1; exact absurd h1 (by simp)
      | str s => rw [wfRowE, hcol] at h1; exact absurd h1 (by simp)
      | obj o => rw [wfRowE, hcol] at h1; exact absurd h1 (by simp)
    | null => simp [wfRowE] at h1
    | bool b => simp [wfRowE] at h1
    | int n => simp [wfRowE] at h1
    | str s => simp [wfRowE] at h1
    | list xs => simp [wfRowE] at h1

theorem processPage_eq_of_wf (p : JVal) (h : wfPageE p = true) :
    ConvertParse.processPage p = ScanPdf.processPage p ∧
      ∃ rec, ScanPdf.processPage p = .ok (some rec) := by
  cases p with
  | obj pkvs =>
    simp only [wfPageE, Bool.and_eq_true] at h
    obtain ⟨h1, h2⟩ := h
    cases hidx : objGet pkvs "index" (.int 0) with
    | int i =>
      cases hrow : objGet pkvs "row" (.list []) with
      | list rs =>
        rw [hrow] at h2
        simp only [Bool.and_eq_true, Bool.not_eq_true'] at h2
        obtain ⟨hne, hwfr⟩ := h2
        obtain ⟨m, hm1, hm2, hlen⟩ := buildMat_eq_of_wf rs hwfr
        cases m with
        | nil =>
          exfalso
          cases rs with
          | nil => simp at hne
          | cons a b => simp at hlen
        | cons a t =>
          constructor
          · simp [ConvertParse.processPage, ScanPdf.processPage, hidx, pyInt, hrow,
              pyFalsy, hne, pyIter, hm1, hm2]
          · exact ⟨⟨i + 1, a, t⟩, by simp [ScanPdf.processPage, hidx, pyInt, hrow, hne, hm2]⟩
      | null => rw [hrow] at h2; exact absurd h2 (by simp)
      | bool b => rw [hrow] at h2; exact absurd h2 (by simp)
      | int n => rw [hrow] at h2; exact absurd h2 (by simp)
      | str s => rw [hrow] at h2; exact absurd h2 (by simp)
      | obj o => rw [hrow] at h2; exact absurd h2 (by simp)
    | null => rw [hidx] at h1; exact absurd h1 (by simp)
    | bool b => rw [hidx] at h1; exact absurd h1 (by simp)
    | str s => rw [hidx] at h1; exact absurd h1 (by simp)
    | list xs => rw [hidx] at h1; exact absurd h1 (by simp)
    | obj o => rw [hidx] at h1; exact absurd h1 (by simp)
  | null => simp [wfPageE] at h
  | bool b => simp [wfPageE] at h
  | int n => simp [wfPageE] at h
  | str s => simp [wfPageE] at h
  | list xs => simp [wfPageE] at h

theorem parsePages_eq_of_wf (ps : List JVal) (h : ps.all wfPageE = true) :
    ConvertParse.parsePages ps = ScanPdf.parsePages ps := by
  induction ps with
  | nil => rfl
  | cons p rest ih =>
    simp only [List.all_cons, Bool.and_eq_true] at h
    obtain ⟨heq, rec, hrec⟩ := processPage_eq_of_wf p h.1
    rw [ConvertParse.parsePages, ScanPdf.parsePages, heq, hrec, ih h.2]

/-- C10: on a body whose `document` value is a dict and whose `page`
value is a (possibly empty) list of pages conforming to C10's schema —
dict pages with integer `index` and a non-empty list `row` of dict rows
whose `column` values are lists of dict cells with string (or
string-in-dict) `text` — the two `parse_json2_tables` implementations
return equal results. -/
theorem c10_normalizers_agree_on_wellformed (body dkvs : List (String × JVal)) (ps : List JVal)
    (hd : objGet body "document" (.obj []) = .obj dkvs)
    (hp : objGet dkvs "page" .null = .list ps)
    (hwf : ps.all wfPageE = true) :
    ConvertParse.parse_json2_tables body = ScanPdf.parse_json2_tables body := by
  have hp2 : objGet dkvs "page" (.list []) = .list ps :=
    objGet_default_irrel dkvs "page" .null (.list []) _ hp (by simp)
  unfold ConvertParse.parse_json2_tables ScanPdf.parse_json2_tables
  rw [hd]
  dsimp only
  rw [hp, hp2]
  simp only [ConvertParse.wrapPage, pyIter]
  exact parsePages_eq_of_wf ps hwf

/-- C10 at the worked-example body (a one-page list form). -/
theorem c10_normalizers_agree_on_wellformed_witness :
    ConvertParse.parse_json2_tables
      [("document", JVal.obj [("page", JVal.list [JVal.obj [("index", JVal.int 0),
        ("row", JVal.list [
          .obj [("column", JVal.list [.obj [("text", JVal.str "A")], .obj [("text", JVal.str "B")]])],
          .obj [("column", JVal.list [.obj [("text", JVal.obj [("text", JVal.str "1")])],
                                      .obj [("text", JVal.str "2")]])]])]])])] =
    ScanPdf.parse_json2_tables
      [("document", JVal.obj [("page", JVal.list [JVal.obj [("index", JVal.int 0),
        ("row", JVal.list [
          .obj [("column", JVal.list [.obj [("text", JVal.str "A")], .obj [("text", JVal.str "B")]])],
          .obj [("column", JVal.list [.obj [("text", JVal.obj [("text", JVal.str "1")])],
                                      .obj [("text", JVal.str "2")]])]])]])])] :=
  c10_normalizers_agree_on_wellformed _ _ _ rfl rfl rfl

/-! ### main.py: OCR-path extraction and the per-document driver -/

namespace Main

/-- Failures the embedded `main.py` control flow can surface: the
"No valid pages to process" ValueError, fitz's page-load failure, and
the IndexError from `pages[0]` on an empty page list. -/
inductive PdfErr where
  | noValidPages
  | pageNotInDocument
  | indexError
deriving DecidableEq, Repr

/-- Helper for `pySplit`: walk the characters, accumulating the current
word reversed, emitting a word at each whitespace run boundary. -/
def pySplitAux : List Char → List Char → List String
  | [], acc => if acc.isEmpty then [] else [String.mk acc.reverse]
  | c :: cs, acc =>
    if c.isWhitespace then
      if acc.isEmpty then pySplitAux cs []
      else String.mk acc.reverse :: pySplitAux cs []
    else pySplitAux cs (c :: acc)

/-- Python `s.split()` with no argument: split on runs of whitespace,
discarding empty pieces. -/
def pySplit (s : String) : List String :=
  pySplitAux s.data []

/-- One OCR-path table record (`main.py` lines 122-128).  The
`metadata: {ocr_method: ...}` field only names which external engine
produced the lines and is not modelled. -/
structure ScanRec where
  page : Int
  title : String
  headers : List String
  rows : List (List String)
deriving DecidableEq, Repr

/-- Per-page structuring of OCR output (`main.py` lines 113-128): split
each line on whitespace, first row (stripped) becomes headers, the
remaining rows are cut to the header count (`row[:len(headers)]` — a
slice, which truncates but never pads), the first raw line is the
title. -/
def structure_page (p : Int) (lines : List String) : ScanRec :=
  let rows_all := lines.map pySplit
  let headers0 : List String :=
    match rows_all with
    | [] => []
    | h :: _ => h
  let data0 : List (List String) :=
    match rows_all with
    | [] => []
    | [_] => []
    | _ :: t => t
  let headers := headers0.map pyStrip
  let data_rows := data0.map fun row => row.take headers.length
  let title :=
    match lines with
    | [] => ""
    | l :: _ => l
  ⟨p, title, headers, data_rows⟩

/-- `extract_tables_scanned` (`main.py` lines 84-130): out-of-range
pages are skipped; each kept page's OCR line list — the external
PaddleOCR pass with the Tesseract fallback, modelled by the `ocrLines`
oracle — is structured into a record. -/
def extract_tables_scanned (page_count : Int) (ocrLines : Int → List String)
    (pages : List Int) : List ScanRec :=
  pages.filterMap fun p =>
    if p < 1 ∨ p > page_count then none
    else some (structure_page p (ocrLines p))

/-- One table as returned by the external camelot reader: its 1-based
page, its cell grid (`tbl.df` as rows of strings) and its parsing
report rendered as a string. -/
structure CamelotTbl where
  page : Int
  df : List (List String)
  report : String
deriving DecidableEq, Repr

/-- One digital-path table record (`main.py` lines 73-79). -/
structure DigRec where
  page : Int
  headers : String
  raw_rows : List (List String)
  processed_rows : List (List String)
  metadata : String
deriving DecidableEq, Repr

/-- Header cleaning of the digital path (`main.py` line 70):
`header.strip().replace("\n", " ").replace(",", "")`. -/
def clean_header (h : String) : String :=
  String.mk (((pyStrip h).data.map fun c => if c = '\n' then ' ' else c).filter fun c => c ≠ ',')

/-- `extract_tables_digital` (`main.py` lines 40-81): validate the
requested pages against the page count and raise the
"No valid pages to process" ValueError when none survive; otherwise run
the external camelot reader — the `camelot` oracle, standing for the
lattice pass with the stream fallback, fed the comma-joined valid page
list — and reshape each non-empty grid: first row cleaned and
comma-joined as headers, remaining rows as both raw and processed
rows. -/
def extract_tables_digital (page_count : Int) (camelot : String → List CamelotTbl)
    (pages : List Int) : Except PdfErr (List DigRec) :=
  let valid := pages.filter fun p => 1 ≤ p ∧ p ≤ page_count
  if valid.isEmpty then .error .noValidPages
  else
    .ok ((camelot (String.intercalate "," (valid.map toString))).filterMap fun t =>
      match t.df with
      | [] => none
      | hrow :: rest =>
        some ⟨t.page, String.intercalate "," (hrow.map clean_header), rest, rest, t.report⟩)

/-- fitz `Document.load_page`: 0-based indices below the page count are
accepted, negative indices count back from the end, anything else
raises. -/
def load_page (page_count p : Int) : Except PdfErr Int :=
  if 0 ≤ p ∧ p < page_count then .ok p
  else if -page_count ≤ p ∧ p < 0 then .ok (page_count + p)
  else .error .pageNotInDocument

/-- `is_scanned` (`main.py` lines 33-37): load the sample page and
compare the stripped text-layer length — the external text extraction,
modelled by the `textLen` oracle — against the fixed threshold 20. -/
def is_scanned (page_count : Int) (textLen : Int → Nat) (page_no : Int) :
    Except PdfErr Bool :=
  match load_page page_count page_no with
  | .error e => .error e
  | .ok q => .ok (decide (textLen q < 20))

/-- The extraction outcome of one document: the list of records of
whichever path ran (the output-file serialization is I/O and is not
modelled). -/
inductive Tables where
  | scanned : List ScanRec → Tables
  | digital : List DigRec → Tables
deriving DecidableEq, Repr

/-- `process_pdf` (`main.py` lines 136-165): `pages[0]` raises
IndexError on an empty list; the scanned/digital classification runs
first on sample page `pages[0] - 1`; then the chosen extractor; only
after extraction does the driver's own `if not pages` check run (on the
raw request list, so it can never fire — a nonempty list reached
extraction, an empty one already raised). -/
def process_pdf (page_count : Int) (textLen : Int → Nat)
    (camelot : String → List CamelotTbl) (ocrLines : Int → List String)
    (pages : List Int) : Except PdfErr Tables :=
  match pages with
  | [] => .error .indexError
  | p0 :: _ =>
    match is_scanned page_count textLen (p0 - 1) with
    | .error e => .error e
    | .ok scanned =>
      if scanned then
        let tables := extract_tables_scanned page_count ocrLines pages
        if pages.isEmpty then .error .noValidPages else .ok (.scanned tables)
      else
        match extract_tables_digital page_count camelot pages with
        | .error e => .error e
        | .ok tables =>
          if pages.isEmpty then .error .noValidPages else .ok (.digital tables)

end Main

/-- C8 fails as stated: OCR lines `["a b", "c"]` give headers
`["a", "b"]` and the single data row `["c"]`, which is shorter than the
header count and is not padded. -/
theorem c8_counterexample :
    Main.extract_tables_scanned 1 (fun _ => ["a b", "c"]) [1] =
      [⟨1, "a b", ["a", "b"], [["c"]]⟩] ∧
    ¬ (∀ rec ∈ Main.extract_tables_scanned 1 (fun _ => ["a b", "c"]) [1],
        ∀ row ∈ rec.rows, row.length = rec.headers.length) :=
  ⟨rfl, by decide⟩

/-- C8 amended: in every record emitted by `extract_tables_scanned`,
every data row has at most as many cells as the headers — rows longer
than the header count are truncated by the `row[:len(headers)]` slice,
but shorter rows are left as they are, not padded. -/
theorem c8_amended_rows_at_most_headers (page_count : Int)
    (ocrLines : Int → List String) (pages : List Int)
    (rec : Main.ScanRec) (hrec : rec ∈ Main.extract_tables_scanned page_count ocrLines pages)
    (row : List String) (hrow : row ∈ rec.rows) :
    row.length ≤ rec.headers.length := by
  simp only [Main.extract_tables_scanned, List.mem_filterMap] at hrec
  obtain ⟨p, hp, hsome⟩ := hrec
  split at hsome
  · exact absurd hsome (by simp)
  · have hrec2 : Main.structure_page p (ocrLines p) = rec := by
      injection hsome
    subst hrec2
    simp only [Main.structure_page] at hrow ⊢
    obtain ⟨x, hx, hxe⟩ := List.mem_map.mp hrow
    subst hxe
    simp [List.length_take]

/-- C8 amended at a concrete page: headers have three cells, the data
row two, and two is at most three. -/
theorem c8_amended_rows_at_most_headers_witness :
    (⟨1, "a b c", ["a", "b", "c"], [["d", "e"]]⟩ : Main.ScanRec) ∈
      Main.extract_tables_scanned 1 (fun _ => ["a b c", "d e"]) [1] ∧
    (["d", "e"] : List String).length ≤
      (⟨1, "a b c", ["a", "b", "c"], [["d", "e"]]⟩ : Main.ScanRec).headers.length :=
  ⟨by decide,
   c8_amended_rows_at_most_headers 1 (fun _ => ["a b c", "d e"]) [1]
     ⟨1, "a b c", ["a", "b", "c"], [["d", "e"]]⟩ (by decide) ["d", "e"] (by decide)⟩

/-- C9 fails as stated: with a one-page document, requesting only the
out-of-range page 2 makes the classifier's `load_page` raise first — a
page-load failure, not the "No valid pages to process" validation — and
requesting only page 0 (also invalid) classifies via fitz's negative
indexing, extracts nothing, and returns an empty scanned result with no
validation failure at all. -/
theorem c9_counterexample :
    Main.process_pdf 1 (fun _ => 0) (fun _ => []) (fun _ => []) [2] =
      .error .pageNotInDocument ∧
    Main.process_pdf 1 (fun _ => 0) (fun _ => []) (fun _ => []) [0] =
      .ok (.scanned []) ∧
    (∀ p ∈ [(2 : Int)], ¬(1 ≤ p ∧ p ≤ (1 : Int))) ∧
    (∀ p ∈ [(0 : Int)], ¬(1 ≤ p ∧ p ≤ (1 : Int))) :=
  ⟨rfl, rfl, by decide, by decide⟩

/-- C9 amended: when no requested page lies in the document's range,
`process_pdf` runs the scanned-vs-digital classification first; the
classifier either raises its own page-load failure, or — when the
sample index resolves via negative indexing — routes to an extractor:
the scanned path silently skips every page and succeeds with an empty
record list, and only the digital path raises the distinct
"No valid pages to process" validation failure, after classification
has already happened. -/
theorem c9_amended_validation_after_classification (page_count : Int) (textLen : Int → Nat)
    (camelot : String → List Main.CamelotTbl) (ocrLines : Int → List String)
    (p0 : Int) (rest : List Int)
    (h : ∀ p ∈ p0 :: rest, ¬(1 ≤ p ∧ p ≤ page_count)) :
    Main.process_pdf page_count textLen camelot ocrLines (p0 :: rest) =
      match Main.load_page page_count (p0 - 1) with
      | .error e => .error e
      | .ok q => if textLen q < 20 then .ok (.scanned []) else .error .noValidPages := by
  have hscan : Main.extract_tables_scanned page_count ocrLines (p0 :: rest) = [] := by
    simp only [Main.extract_tables_scanned]
    rw [List.filterMap_eq_nil_iff]
    intro p hp
    have hnv := h p hp
    have hcond : p < 1 ∨ p > page_count := by
      by_contra hc
      push_neg at hc
      exact hnv ⟨by omega, by omega⟩
    simp [hcond]
  have hdig : Main.extract_tables_digital page_count camelot (p0 :: rest) =
      .error .noValidPages := by
    simp only [Main.extract_tables_digital]
    have hfil : (p0 :: rest).filter (fun p => decide (1 ≤ p ∧ p ≤ page_count)) = [] := by
      rw [List.filter_eq_nil_iff]
      intro p hp
      simpa using h p hp
    rw [hfil]
    rfl
  unfold Main.process_pdf
  cases hl : Main.load_page page_count (p0 - 1) with
  | error e => simp [Main.is_scanned, hl]
  | ok q =>
    by_cases ht : textLen q < 20
    · simp [Main.is_scanned, hl, ht, hscan]
    · simp [Main.is_scanned, hl, ht, hdig]

/-- C9 amended at the concrete one-page document with only page 2
requested: the result is the classifier's page-load failure. -/
theorem c9_amended_validation_after_classification_witness :
    Main.process_pdf 1 (fun _ => 0) (fun _ => []) (fun _ => []) [2] =
      (match Main.load_page 1 (2 - 1) with
       | .error e => .error e
       | .ok q => if (fun _ => (0 : Nat)) q < 20 then .ok (.scanned [])
                  else .error .noValidPages) :=
  c9_amended_validation_after_classification 1 (fun _ => 0) (fun _ => []) (fun _ => [])
    2 [] (by decide)
